import Mathlib

/-!
Verification of the Task-Board Consistency Model of the project-manager
repository. The definitions below are shallow embeddings of the code in
`src/pages/ProjectBoard.tsx`, `src/components/TaskModal.tsx`,
`src/pages/Dashboard.tsx` and the SQL schema/row-level-security policies in
`supabase/migrations/20250715163551-*.sql`. String-valued uuid columns are
modelled as `String`, SQL `INTEGER` / JS `number` positions as `Int`,
timestamps as opaque `String`s. The store is modelled as explicit lists of
rows; a fallible store call is modelled by an explicit outcome parameter.
-/

namespace ProjectManager

/-- `task_status` enum from the schema: 'todo' | 'in_progress' | 'review' | 'done'. -/
inductive TaskStatus
  | todo
  | in_progress
  | review
  | done
deriving DecidableEq

/-- `project_role` enum from the schema: 'owner' | 'admin' | 'member'. -/
inductive ProjectRole
  | owner
  | admin
  | member
deriving DecidableEq

/-- A row of the `tasks` table (view-only decorations `assignees` and
`comments_count` from `ProjectBoard.tsx` are joins, not task columns, and the
`updated_at` column is trigger-maintained; they are omitted). -/
structure Task where
  id : String
  board_id : String
  title : String
  description : Option String
  status : TaskStatus
  position : Int
  due_date : Option String
  created_by : String
  created_at : String
deriving DecidableEq

/-- A row of the `projects` table. -/
structure Project where
  id : String
  name : String
  description : Option String
  owner_id : String
deriving DecidableEq

/-- A row of the `project_members` table (the `Membership` entity). -/
structure Membership where
  project_id : String
  user_id : String
  role : ProjectRole
deriving DecidableEq

/-- A row of the `boards` table. -/
structure Board where
  id : String
  project_id : String
  name : String
  description : Option String
  position : Int
deriving DecidableEq

/-- A row of the `task_assignments` table (the `Assignment` entity);
`UNIQUE(task_id, user_id)` is enforced by `insertAssignment` below. -/
structure Assignment where
  task_id : String
  user_id : String
deriving DecidableEq

/-- A column descriptor from `STATUS_COLUMNS` in `ProjectBoard.tsx`. -/
structure StatusColumn where
  id : TaskStatus
  title : String
  color : String
deriving DecidableEq

/-- `STATUS_COLUMNS` from `ProjectBoard.tsx` (lines 42-47). -/
def STATUS_COLUMNS : List StatusColumn :=
  [⟨.todo, "To Do", "bg-slate-100"⟩,
   ⟨.in_progress, "In Progress", "bg-blue-100"⟩,
   ⟨.review, "Review", "bg-yellow-100"⟩,
   ⟨.done, "Done", "bg-green-100"⟩]

/-- Comparison used by `.sort((a, b) => a.position - b.position)`:
ascending order on `position`. -/
def posLE (a b : Task) : Prop := a.position ≤ b.position

instance : DecidableRel posLE :=
  fun a b => inferInstanceAs (Decidable (a.position ≤ b.position))

instance : IsTotal Task posLE := ⟨fun a b => Int.le_total a.position b.position⟩

instance : IsTrans Task posLE := ⟨fun _ _ _ h1 h2 => le_trans h1 h2⟩

/-- `getTasksByStatus` from `ProjectBoard.tsx` (lines 227-229):
`tasks.filter(task => task.status === status).sort((a, b) => a.position - b.position)`. -/
def getTasksByStatus (tasks : List Task) (s : TaskStatus) : List Task :=
  List.insertionSort posLE (tasks.filter fun t => decide (t.status = s))

/-- The insert position computed by `handleCreateTask` (`ProjectBoard.tsx`
line 149): `Math.max(...existing.map(t => t.position), -1) + 1`, where
`existing` is the list of tasks already in the target status. -/
def computeInsertPosition (existing : List Task) : Int :=
  (existing.map Task.position).foldl max (-1) + 1

/-- The task row inserted by `handleCreateTask` (`ProjectBoard.tsx`
lines 151-162) given the current board tasks and the dialog inputs. -/
def handleCreateTaskRow (tasks : List Task) (boardId : String) (title descr : String)
    (newTaskStatus : TaskStatus) (uid : String) (newId now : String) : Task :=
  { id := newId
    board_id := boardId
    title := title
    description := some descr
    status := newTaskStatus
    position := computeInsertPosition (tasks.filter fun t => decide (t.status = newTaskStatus))
    due_date := none
    created_by := uid
    created_at := now }

/-- A drag location (`source` / `destination` of a `DropResult`): the
`droppableId` is one of the four status-column ids, `index` the index inside
the column. -/
structure DragLoc where
  droppableId : TaskStatus
  index : Nat
deriving DecidableEq

/-- The row update issued by `handleDragEnd` (`ProjectBoard.tsx`
lines 196-202): `update({status, position: destination.index}).eq('id', draggableId)`
applied to one task row. -/
def applyMoveTask (draggableId : String) (newStatus : TaskStatus) (newPos : Int)
    (t : Task) : Task :=
  if t.id = draggableId then { t with status := newStatus, position := newPos } else t

/-- `handleDragEnd` from `ProjectBoard.tsx` (lines 183-215) acting on the
task table: returns the updated rows and the write issued (`none` when the
early returns fire: missing destination, missing board, or identity move). -/
def handleDragEnd (board : Option Board) (tasks : List Task) (source : DragLoc)
    (dest : Option DragLoc) (draggableId : String) :
    List Task × Option (TaskStatus × Int) :=
  match dest, board with
  | none, _ => (tasks, none)
  | some _, none => (tasks, none)
  | some d, some _ =>
    if source.droppableId = d.droppableId ∧ source.index = d.index then
      (tasks, none)
    else
      (tasks.map (applyMoveTask draggableId d.droppableId (d.index : Int)),
       some (d.droppableId, (d.index : Int)))

/-- Positions of the tasks in one (board, status) partition. -/
def partitionPositions (tasks : List Task) (bid : String) (s : TaskStatus) : List Int :=
  (tasks.filter fun t => decide (t.board_id = bid ∧ t.status = s)).map Task.position

/-- A list of positions is exactly 0..n-1 with no duplicates: each of
0..n-1 occurs exactly once (with n the length, this forces the list to be a
permutation of 0..n-1). -/
def contiguousFromZero (l : List Int) : Bool :=
  (List.range l.length).all fun i => l.count (Int.ofNat i) = 1

/-- The unique-and-contiguous position invariant over every (board, status)
partition occurring in the task table. -/
def posInvariant (tasks : List Task) : Bool :=
  ((tasks.map Task.board_id).dedup).all fun bid =>
    STATUS_COLUMNS.all fun c => contiguousFromZero (partitionPositions tasks bid c.id)

/-- Helper for concrete test rows. -/
def mkTask (tid bid : String) (s : TaskStatus) (pos : Int) : Task :=
  { id := tid
    board_id := bid
    title := "t"
    description := none
    status := s
    position := pos
    due_date := none
    created_by := "u"
    created_at := "2025-01-01" }

/-- The row-level-security SELECT policy on `projects`
("Users can view projects they're members of", migration lines 96-100):
`auth.uid() IN (SELECT user_id FROM project_members WHERE project_id = id)
 OR owner_id = auth.uid()`. -/
def canView (uid : String) (p : Project) (ms : List Membership) : Bool :=
  (ms.any fun m => decide (m.project_id = p.id ∧ m.user_id = uid)) ||
    decide (p.owner_id = uid)

/-- SELECT visibility of one `project_members` row to `uid`, as the union of
the two permissive policies on `project_members` (migration lines 106-115):
the caller is a member of the same project, or the caller owns the project. -/
def memberRowVisible (uid : String) (m : Membership) (ms : List Membership)
    (ps : List Project) : Bool :=
  (ms.any fun m2 => decide (m2.project_id = m.project_id ∧ m2.user_id = uid)) ||
    (ps.any fun p => decide (p.id = m.project_id ∧ p.owner_id = uid))

/-- `fetchProjects` from `Dashboard.tsx` (lines 39-66): selects the projects
the row-level-security policy lets `uid` read, inner-joined
(`project_members!inner(id)`) with the `project_members` rows visible to
`uid`, so a project is listed only if at least one visible membership row for
it exists. (The `created_at` ordering does not affect list membership.) -/
def fetchProjectsList (uid : String) (ps : List Project) (ms : List Membership) :
    List Project :=
  (ps.filter fun p => canView uid p ms).filter fun p =>
    ms.any fun m => decide (m.project_id = p.id) && memberRowVisible uid m ms ps

/-- Write operations attempted by `handleCreateProject`. -/
inductive WriteOp
  | insertProject
  | insertMembership
  | insertBoard
deriving DecidableEq

/-- The store state the dashboard writes touch. -/
structure DB where
  projects : List Project
  memberships : List Membership
  boards : List Board
deriving DecidableEq

/-- Success/failure outcome of each of the three store inserts issued by
`handleCreateProject` (`false` models the store returning an error). -/
structure StepOutcome where
  projectInsertOk : Bool
  memberInsertOk : Bool
  boardInsertOk : Bool
deriving DecidableEq

/-- `handleCreateProject` from `Dashboard.tsx` (lines 68-127): insert the
project (owner = caller), then the owner membership, then the default board
("Main Board"); each step runs only if the previous succeeded (`throw` on
error) and a failing step surfaces an error toast (the returned `Bool`).
No step is rolled back. -/
def handleCreateProject (uid name descr newPid newBid : String) (oc : StepOutcome)
    (db : DB) : DB × List WriteOp × Bool :=
  if !oc.projectInsertOk then
    (db, [.insertProject], true)
  else
    let p : Project := { id := newPid, name := name, description := some descr, owner_id := uid }
    let db1 : DB := { db with projects := db.projects ++ [p] }
    if !oc.memberInsertOk then
      (db1, [.insertProject, .insertMembership], true)
    else
      let m : Membership := { project_id := newPid, user_id := uid, role := .owner }
      let db2 : DB := { db1 with memberships := db1.memberships ++ [m] }
      if !oc.boardInsertOk then
        (db2, [.insertProject, .insertMembership, .insertBoard], true)
      else
        let b : Board := { id := newBid, project_id := newPid, name := "Main Board",
                           description := some "Default project board", position := 0 }
        ({ db2 with boards := db2.boards ++ [b] },
         [.insertProject, .insertMembership, .insertBoard], false)

/-- Whether the assignment table holds a row for the pair. -/
def hasAssignment (db : List Assignment) (tid uid : String) : Bool :=
  db.any fun a => decide (a.task_id = tid ∧ a.user_id = uid)

/-- Insert into `task_assignments` under the schema's
`UNIQUE(task_id, user_id)` constraint (migration line 68): the insert is
rejected when the pair already exists. -/
def insertAssignment (db : List Assignment) (tid uid : String) :
    Option (List Assignment) :=
  if hasAssignment db tid uid then none else some (db ++ [⟨tid, uid⟩])

/-- `delete().eq('task_id', ...).eq('user_id', ...)` on `task_assignments`. -/
def deleteAssignment (db : List Assignment) (tid uid : String) : List Assignment :=
  db.filter fun a => !decide (a.task_id = tid ∧ a.user_id = uid)

/-- `handleAssignUser` from `TaskModal.tsx`: checks
`task.assignees?.some(a => a.user_id === userId)` on the locally fetched
assignee list; if locally assigned it deletes the row, otherwise it inserts
one row, and a store error (such as the unique-key rejection) is surfaced as
an error toast (the returned `Bool`) leaving the table unchanged. -/
def handleAssignUser (localAssignees : List String) (db : List Assignment)
    (tid uid : String) : List Assignment × Bool :=
  if localAssignees.contains uid then
    (deleteAssignment db tid uid, false)
  else
    match insertAssignment db tid uid with
    | some db2 => (db2, false)
    | none => (db, true)

/-- Outcome of a store read call. -/
inductive FetchResult (α : Type)
  | ok (data : α)
  | err
deriving DecidableEq

/-- The `tasks` state update performed by `fetchTasks` (`ProjectBoard.tsx`
lines 110-141): on success the state becomes the fetched rows (the query
orders by `position`; the assignee/comment-count decoration does not change
the task rows); on error only an error toast is raised (the returned `Bool`)
and the previous state is left as it was. The `catch` swallows the failure,
so the function is total (never a crash). -/
def fetchTasksUpdate (prev : List Task) (res : FetchResult (List Task)) :
    List Task × Bool :=
  match res with
  | .ok data => (List.insertionSort posLE data, false)
  | .err => (prev, true)

/-- The `projects` state update performed by `fetchProjects` (`Dashboard.tsx`
lines 39-66): on success the state becomes the fetched list; on error only an
error toast is raised and the previous state is left as it was. -/
def fetchProjectsUpdate (prev : List Project) (res : FetchResult (List Project)) :
    List Project × Bool :=
  match res with
  | .ok data => (data, false)
  | .err => (prev, true)

/-- The fields sent by `handleSaveTask` in `TaskModal.tsx` (lines 347-377):
`update({title, description, status, due_date}).eq('id', task.id)`. -/
structure EditedFields where
  title : String
  description : Option String
  status : TaskStatus
  due_date : Option String
deriving DecidableEq

/-- The effect of `handleSaveTask`'s update on one task row. -/
def saveTaskRow (taskId : String) (edited : EditedFields) (t : Task) : Task :=
  if t.id = taskId then
    { t with title := edited.title, description := edited.description,
             status := edited.status, due_date := edited.due_date }
  else t

/-- `handleSaveTask` acting on the task table. -/
def handleSaveTask (tasks : List Task) (taskId : String) (edited : EditedFields) :
    List Task :=
  tasks.map (saveTaskRow taskId edited)

/-- `(task_id, user_id)` pairs are pairwise distinct, the property the
`UNIQUE(task_id, user_id)` constraint maintains. -/
def pairDistinct (db : List Assignment) : Prop :=
  List.Pairwise (fun a b => ¬(a.task_id = b.task_id ∧ a.user_id = b.user_id)) db

lemma le_foldl_max (xs : List Int) (a : Int) : a ≤ xs.foldl max a := by
  induction xs generalizing a with
  | nil => exact le_refl a
  | cons x xs ih => exact le_trans (le_max_left a x) (ih (max a x))

lemma foldl_max_le_of_mem {xs : List Int} {x : Int} (hx : x ∈ xs) (a : Int) :
    x ≤ xs.foldl max a := by
  induction xs generalizing a with
  | nil => cases hx
  | cons y ys ih =>
    rcases List.mem_cons.mp hx with h | h
    · subst h
      exact le_trans (le_max_right a x) (le_foldl_max ys (max a x))
    · exact ih h (max a y)

lemma foldl_max_mem_or_eq (xs : List Int) (a : Int) :
    xs.foldl max a = a ∨ xs.foldl max a ∈ xs := by
  induction xs generalizing a with
  | nil => exact Or.inl rfl
  | cons y ys ih =>
    rcases ih (max a y) with h | h
    · rcases le_total a y with hay | hya
      · right
        rw [List.foldl_cons, h, max_eq_right hay]
        exact List.mem_cons_self y ys
      · left
        rw [List.foldl_cons, h, max_eq_left hya]
    · right
      exact List.mem_cons_of_mem y h

/-- C2: the position computed for a newly created task is 0 on an empty
column, one greater than the maximum existing position on a nonempty column
(positions being nonnegative, as the unique-position invariant forces), and
strictly above every existing position, so it never collides. -/
theorem C2_computeInsertPosition (l : List Task)
    (hpos : ∀ t ∈ l, 0 ≤ t.position) (hne : l ≠ []) :
    computeInsertPosition [] = 0 ∧
    computeInsertPosition [mkTask "a" "b1" .todo 0, mkTask "b" "b1" .todo 2] = 3 ∧
    (∀ t ∈ l, t.position < computeInsertPosition l) ∧
    (∃ t ∈ l, computeInsertPosition l = t.position + 1 ∧
      ∀ u ∈ l, u.position ≤ t.position) := by
  refine ⟨by decide, by decide, ?_, ?_⟩
  · intro t ht
    have h1 : t.position ≤ (l.map Task.position).foldl max (-1) :=
      foldl_max_le_of_mem (List.mem_map_of_mem Task.position ht) (-1)
    unfold computeInsertPosition
    omega
  · rcases foldl_max_mem_or_eq (l.map Task.position) (-1) with h | h
    · rcases List.exists_mem_of_ne_nil l hne with ⟨t, ht⟩
      have h1 : t.position ≤ (l.map Task.position).foldl max (-1) :=
        foldl_max_le_of_mem (List.mem_map_of_mem Task.position ht) (-1)
      rw [h] at h1
      have h2 := hpos t ht
      omega
    · rcases List.mem_map.mp h with ⟨t, ht, hte⟩
      refine ⟨t, ht, ?_, ?_⟩
      · unfold computeInsertPosition
        rw [hte]
      · intro u hu
        have h1 : u.position ≤ (l.map Task.position).foldl max (-1) :=
          foldl_max_le_of_mem (List.mem_map_of_mem Task.position hu) (-1)
        rw [← hte] at h1
        exact h1

theorem C2_computeInsertPosition_witness :
    computeInsertPosition [] = 0 ∧
    computeInsertPosition [mkTask "a" "b1" .todo 0, mkTask "b" "b1" .todo 2] = 3 ∧
    (∀ t ∈ [mkTask "a" "b1" .todo 0, mkTask "b" "b1" .todo 2],
      t.position < computeInsertPosition [mkTask "a" "b1" .todo 0, mkTask "b" "b1" .todo 2]) ∧
    (∃ t ∈ [mkTask "a" "b1" .todo 0, mkTask "b" "b1" .todo 2],
      computeInsertPosition [mkTask "a" "b1" .todo 0, mkTask "b" "b1" .todo 2] = t.position + 1 ∧
      ∀ u ∈ [mkTask "a" "b1" .todo 0, mkTask "b" "b1" .todo 2], u.position ≤ t.position) :=
  C2_computeInsertPosition [mkTask "a" "b1" .todo 0, mkTask "b" "b1" .todo 2]
    (by decide) (by decide)

/-- C5: a drag whose destination column and index equal its source column and
index is a no-op: no write is issued and the task table is unchanged. -/
theorem C5_identity_move_noop (b : Option Board) (tasks : List Task) (s d : DragLoc)
    (tid : String) (hs : s.droppableId = d.droppableId) (hi : s.index = d.index) :
    handleDragEnd b tasks s (some d) tid = (tasks, none) := by
  cases b with
  | none => rfl
  | some bb => simp [handleDragEnd, hs, hi]

theorem C5_identity_move_noop_witness :
    handleDragEnd (some ⟨"b1", "p1", "Main Board", none, 0⟩)
      [mkTask "a" "b1" .todo 0] ⟨.todo, 0⟩ (some ⟨.todo, 0⟩) "a" =
      ([mkTask "a" "b1" .todo 0], none) :=
  C5_identity_move_noop (some ⟨"b1", "p1", "Main Board", none, 0⟩)
    [mkTask "a" "b1" .todo 0] ⟨.todo, 0⟩ ⟨.todo, 0⟩ "a" rfl rfl

/-- C6: a non-identity drag issues exactly the write
{status := destStatus, position := destIndex} for the dragged task: the
destination index is assigned verbatim, the dragged task's other fields are
unchanged, and no other task is touched (no sibling renumbering). -/
theorem C6_move_mutation (b : Board) (tasks : List Task) (s d : DragLoc) (tid : String)
    (hne : ¬(s.droppableId = d.droppableId ∧ s.index = d.index)) :
    (handleDragEnd (some b) tasks s (some d) tid).2 =
      some (d.droppableId, (d.index : Int)) ∧
    (handleDragEnd (some b) tasks s (some d) tid).1 =
      tasks.map (applyMoveTask tid d.droppableId (d.index : Int)) ∧
    (∀ t : Task, t.id ≠ tid → applyMoveTask tid d.droppableId (d.index : Int) t = t) ∧
    (∀ t : Task, t.id = tid →
      (applyMoveTask tid d.droppableId (d.index : Int) t).status = d.droppableId ∧
      (applyMoveTask tid d.droppableId (d.index : Int) t).position = (d.index : Int) ∧
      (applyMoveTask tid d.droppableId (d.index : Int) t).id = t.id ∧
      (applyMoveTask tid d.droppableId (d.index : Int) t).title = t.title ∧
      (applyMoveTask tid d.droppableId (d.index : Int) t).description = t.description ∧
      (applyMoveTask tid d.droppableId (d.index : Int) t).due_date = t.due_date ∧
      (applyMoveTask tid d.droppableId (d.index : Int) t).board_id = t.board_id ∧
      (applyMoveTask tid d.droppableId (d.index : Int) t).created_by = t.created_by ∧
      (applyMoveTask tid d.droppableId (d.index : Int) t).created_at = t.created_at) := by
  refine ⟨?_, ?_, ?_, ?_⟩
  · simp [handleDragEnd, hne]
  · simp [handleDragEnd, hne]
  · intro t ht
    simp [applyMoveTask, ht]
  · intro t ht
    simp [applyMoveTask, ht]

theorem C6_move_mutation_witness :
    (handleDragEnd (some ⟨"b1", "p1", "Main Board", none, 0⟩)
      [mkTask "a" "b1" .todo 0] ⟨.todo, 0⟩ (some ⟨.done, 0⟩) "a").2 =
      some (.done, 0) :=
  (C6_move_mutation ⟨"b1", "p1", "Main Board", none, 0⟩
    [mkTask "a" "b1" .todo 0] ⟨.todo, 0⟩ ⟨.done, 0⟩ "a" (by decide)).1

/-- C9 counterexample: a failing task re-fetch does not fall back to an empty
result set; it leaves the previously fetched (now possibly stale) list in
place. -/
theorem C9_stale_read_cex :
    (fetchTasksUpdate [mkTask "a" "b1" .todo 0] .err).1 ≠ [] ∧
    (fetchTasksUpdate [mkTask "a" "b1" .todo 0] .err).2 = true := by
  constructor
  · intro h
    cases h
  · rfl

/-- C9 (amended): a failing read never crashes (the handler is total), raises
a notification, and leaves the previous result state unchanged — which is the
empty result only when nothing had been fetched yet, as on initial load. -/
theorem C9_read_failure_behavior (prevT : List Task) (prevP : List Project) :
    fetchTasksUpdate prevT .err = (prevT, true) ∧
    fetchProjectsUpdate prevP .err = (prevP, true) ∧
    fetchTasksUpdate [] .err = ([], true) ∧
    fetchProjectsUpdate [] .err = ([], true) :=
  ⟨rfl, rfl, rfl, rfl⟩

theorem C9_read_failure_behavior_witness :
    fetchTasksUpdate [mkTask "a" "b1" .todo 0] .err = ([mkTask "a" "b1" .todo 0], true) ∧
    fetchProjectsUpdate [] .err = ([], true) :=
  ⟨(C9_read_failure_behavior [mkTask "a" "b1" .todo 0] []).1,
   (C9_read_failure_behavior [mkTask "a" "b1" .todo 0] []).2.1⟩

/-- C10: saving the task detail form updates exactly title, description,
status and due date of the addressed task; every other column — in
particular `position` — and every other task row are unchanged, so a status
change through the modal keeps the task's old position. -/
theorem C10_saveTask_frame (tasks : List Task) (taskId : String) (edited : EditedFields) :
    handleSaveTask tasks taskId edited = tasks.map (saveTaskRow taskId edited) ∧
    (∀ t : Task, t.id ≠ taskId → saveTaskRow taskId edited t = t) ∧
    (∀ t : Task, t.id = taskId →
      (saveTaskRow taskId edited t).title = edited.title ∧
      (saveTaskRow taskId edited t).description = edited.description ∧
      (saveTaskRow taskId edited t).status = edited.status ∧
      (saveTaskRow taskId edited t).due_date = edited.due_date ∧
      (saveTaskRow taskId edited t).position = t.position ∧
      (saveTaskRow taskId edited t).id = t.id ∧
      (saveTaskRow taskId edited t).board_id = t.board_id ∧
      (saveTaskRow taskId edited t).created_by = t.created_by ∧
      (saveTaskRow taskId edited t).created_at = t.created_at) := by
  refine ⟨rfl, ?_, ?_⟩
  · intro t ht
    simp [saveTaskRow, ht]
  · intro t ht
    simp [saveTaskRow, ht]

theorem C10_saveTask_frame_witness :
    (saveTaskRow "a" ⟨"new title", none, .done, none⟩ (mkTask "a" "b1" .todo 5)).position =
      (mkTask "a" "b1" .todo 5).position ∧
    (saveTaskRow "a" ⟨"new title", none, .done, none⟩ (mkTask "a" "b1" .todo 5)).status = .done :=
  ⟨((C10_saveTask_frame [mkTask "a" "b1" .todo 5] "a" ⟨"new title", none, .done, none⟩).2.2
      (mkTask "a" "b1" .todo 5) rfl).2.2.2.2.1,
   ((C10_saveTask_frame [mkTask "a" "b1" .todo 5] "a" ⟨"new title", none, .done, none⟩).2.2
      (mkTask "a" "b1" .todo 5) rfl).2.2.1⟩

/-- C1 counterexample: a board whose 'todo' column holds positions {0, 1}
satisfies the unique-contiguous invariant; dragging the task at index 0 to
index 1 of the same column (a non-identity move, so a write is issued) sets
its position to 1 verbatim while its sibling keeps position 1, breaking the
invariant — positions are not renumbered. -/
theorem C1_move_breaks_invariant_cex :
    posInvariant [mkTask "a" "b1" .todo 0, mkTask "b" "b1" .todo 1] = true ∧
    (handleDragEnd (some ⟨"b1", "p1", "Main Board", none, 0⟩)
        [mkTask "a" "b1" .todo 0, mkTask "b" "b1" .todo 1]
        ⟨.todo, 0⟩ (some ⟨.todo, 1⟩) "a").2 ≠ none ∧
    posInvariant (handleDragEnd (some ⟨"b1", "p1", "Main Board", none, 0⟩)
        [mkTask "a" "b1" .todo 0, mkTask "b" "b1" .todo 1]
        ⟨.todo, 0⟩ (some ⟨.todo, 1⟩) "a").1 = false := by
  refine ⟨by decide, ?_, by decide⟩
  intro h
  exact Option.noConfusion (by simpa using h)

/-- C1 (amended): a non-identity drag keeps every non-dragged task unchanged
and gives the dragged task the destination status and the destination index
verbatim; partition positions are not renumbered so the unique-contiguous
invariant need not survive the move. -/
theorem C1_move_frame (b : Board) (tasks : List Task) (s d : DragLoc) (tid : String)
    (hne : ¬(s.droppableId = d.droppableId ∧ s.index = d.index)) :
    (∀ t ∈ tasks, t.id ≠ tid → t ∈ (handleDragEnd (some b) tasks s (some d) tid).1) ∧
    (∀ t ∈ tasks, t.id = tid →
      ∃ t2 ∈ (handleDragEnd (some b) tasks s (some d) tid).1,
        t2.id = t.id ∧ t2.status = d.droppableId ∧ t2.position = (d.index : Int) ∧
        t2.title = t.title ∧ t2.board_id = t.board_id) := by
  constructor
  · intro t ht hid
    simp only [handleDragEnd, if_neg hne]
    exact List.mem_map.mpr ⟨t, ht, by simp [applyMoveTask, hid]⟩
  · intro t ht hid
    refine ⟨applyMoveTask tid d.droppableId (d.index : Int) t, ?_, ?_⟩
    · simp only [handleDragEnd, if_neg hne]
      exact List.mem_map_of_mem _ ht
    · simp [applyMoveTask, hid]

theorem C1_move_frame_witness :
    ∃ t2 ∈ (handleDragEnd (some ⟨"b1", "p1", "Main Board", none, 0⟩)
        [mkTask "a" "b1" .todo 0, mkTask "b" "b1" .todo 1]
        ⟨.todo, 0⟩ (some ⟨.todo, 1⟩) "a").1,
      t2.id = "a" ∧ t2.status = .todo ∧ t2.position = 1 ∧
      t2.title = "t" ∧ t2.board_id = "b1" :=
  (C1_move_frame ⟨"b1", "p1", "Main Board", none, 0⟩
    [mkTask "a" "b1" .todo 0, mkTask "b" "b1" .todo 1]
    ⟨.todo, 0⟩ ⟨.todo, 1⟩ "a" (by decide)).2 (mkTask "a" "b1" .todo 0) (by decide) rfl

/-- C3 counterexample: the row-level-security predicate makes an owner's
project visible even with zero membership rows, but the dashboard listing
(`fetchProjects` with its `project_members!inner` join) omits exactly such a
project, so the listing is not the set of `canView`-visible projects. -/
theorem C3_listing_cex :
    canView "u1" ⟨"p1", "Acme", none, "u1"⟩ [] = true ∧
    ¬ (⟨"p1", "Acme", none, "u1"⟩ : Project) ∈
        fetchProjectsList "u1" [⟨"p1", "Acme", none, "u1"⟩] [] := by
  constructor
  · decide
  · intro h
    simp [fetchProjectsList] at h

/-- C3 (amended): `canView` returns true iff the identity owns the project or
a membership row exists for (project, identity) — in particular the owner
sees the project with zero membership rows — while the dashboard listing
contains exactly the `canView`-visible projects that additionally have at
least one membership row visible to the caller: an owner-only project with no
membership rows is omitted from the listing. -/
theorem C3_canView_spec (uid : String) (p : Project) (ps : List Project)
    (ms : List Membership) :
    (canView uid p ms = true ↔
      p.owner_id = uid ∨ ∃ m ∈ ms, m.project_id = p.id ∧ m.user_id = uid) ∧
    (p ∈ fetchProjectsList uid ps ms ↔
      p ∈ ps ∧ canView uid p ms = true ∧
        ∃ m ∈ ms, m.project_id = p.id ∧ memberRowVisible uid m ms ps = true) := by
  constructor
  · simp only [canView, Bool.or_eq_true, List.any_eq_true, decide_eq_true_eq]
    exact or_comm
  · simp only [fetchProjectsList, List.mem_filter, List.any_eq_true,
      Bool.and_eq_true, decide_eq_true_eq]
    tauto

theorem C3_canView_spec_witness :
    canView "u1" ⟨"p1", "Acme", none, "u1"⟩ [] = true ↔
      (⟨"p1", "Acme", none, "u1"⟩ : Project).owner_id = "u1" ∨
        ∃ m ∈ ([] : List Membership), m.project_id = "p1" ∧ m.user_id = "u1" :=
  (C3_canView_spec "u1" ⟨"p1", "Acme", none, "u1"⟩ [⟨"p1", "Acme", none, "u1"⟩] []).1

/-- C4: project creation attempts its writes in the fixed order
project → membership → board, stopping at the first failure (the attempted
list is always an initial segment of the full order); a failure in step 2 or
3 leaves the already inserted rows in place (no rollback) and surfaces the
error; on full success exactly one project (owned by the caller), one
membership (caller, owner) and one default board are appended. -/
theorem C4_createProject_spec (uid name descr newPid newBid : String)
    (oc : StepOutcome) (db : DB) :
    (∃ rest, (handleCreateProject uid name descr newPid newBid oc db).2.1 ++ rest =
      [WriteOp.insertProject, WriteOp.insertMembership, WriteOp.insertBoard]) ∧
    (oc.projectInsertOk = false →
      handleCreateProject uid name descr newPid newBid oc db =
        (db, [WriteOp.insertProject], true)) ∧
    (oc.projectInsertOk = true → oc.memberInsertOk = false →
      (handleCreateProject uid name descr newPid newBid oc db).1.projects =
        db.projects ++ [⟨newPid, name, some descr, uid⟩] ∧
      (handleCreateProject uid name descr newPid newBid oc db).1.memberships =
        db.memberships ∧
      (handleCreateProject uid name descr newPid newBid oc db).1.boards = db.boards ∧
      (handleCreateProject uid name descr newPid newBid oc db).2 =
        ([WriteOp.insertProject, WriteOp.insertMembership], true)) ∧
    (oc.projectInsertOk = true → oc.memberInsertOk = true → oc.boardInsertOk = false →
      (handleCreateProject uid name descr newPid newBid oc db).1.projects =
        db.projects ++ [⟨newPid, name, some descr, uid⟩] ∧
      (handleCreateProject uid name descr newPid newBid oc db).1.memberships =
        db.memberships ++ [⟨newPid, uid, .owner⟩] ∧
      (handleCreateProject uid name descr newPid newBid oc db).1.boards = db.boards ∧
      (handleCreateProject uid name descr newPid newBid oc db).2 =
        ([WriteOp.insertProject, WriteOp.insertMembership, WriteOp.insertBoard], true)) ∧
    (oc.projectInsertOk = true → oc.memberInsertOk = true → oc.boardInsertOk = true →
      (handleCreateProject uid name descr newPid newBid oc db).1.projects =
        db.projects ++ [⟨newPid, name, some descr, uid⟩] ∧
      (handleCreateProject uid name descr newPid newBid oc db).1.memberships =
        db.memberships ++ [⟨newPid, uid, .owner⟩] ∧
      (handleCreateProject uid name descr newPid newBid oc db).1.boards =
        db.boards ++ [⟨newBid, newPid, "Main Board", some "Default project board", 0⟩] ∧
      (handleCreateProject uid name descr newPid newBid oc db).2 =
        ([WriteOp.insertProject, WriteOp.insertMembership, WriteOp.insertBoard], false)) := by
  obtain ⟨s1, s2, s3⟩ := oc
  cases s1 <;> cases s2 <;> cases s3 <;> simp [handleCreateProject]

theorem C4_createProject_spec_witness :
    (handleCreateProject "u1" "Acme" "d" "p1" "bd1" ⟨true, false, true⟩
        ⟨[], [], []⟩).1.projects = [⟨"p1", "Acme", some "d", "u1"⟩] ∧
    (handleCreateProject "u1" "Acme" "d" "p1" "bd1" ⟨true, false, true⟩
        ⟨[], [], []⟩).1.memberships = [] ∧
    (handleCreateProject "u1" "Acme" "d" "p1" "bd1" ⟨true, false, true⟩
        ⟨[], [], []⟩).2 = ([WriteOp.insertProject, WriteOp.insertMembership], true) := by
  have h := (C4_createProject_spec "u1" "Acme" "d" "p1" "bd1" ⟨true, false, true⟩
    ⟨[], [], []⟩).2.2.1 rfl rfl
  exact ⟨h.1, h.2.1, h.2.2.2⟩

lemma count_getTasksByStatus (tasks : List Task) (s : TaskStatus) (a : Task) :
    (getTasksByStatus tasks s).count a = if a.status = s then tasks.count a else 0 := by
  rw [getTasksByStatus, (List.perm_insertionSort posLE _).count_eq]
  by_cases h : a.status = s
  · rw [if_pos h]
    have hp : (fun t => decide (t.status = s)) a = true := decide_eq_true h
    exact List.count_filter hp
  · rw [if_neg h]
    refine List.count_eq_zero.mpr ?_
    intro hmem
    exact h (of_decide_eq_true (List.mem_filter.mp hmem).2)

/-- C7: partitioning the board's tasks over the four status columns is a
total non-overlapping cover — the concatenation of the column sequences is a
permutation of the task set, no task lies in two columns — and every column
sequence is ordered ascending by position. -/
theorem C7_partition_cover (tasks : List Task) :
    ((STATUS_COLUMNS.map fun c => getTasksByStatus tasks c.id).flatten).Perm tasks ∧
    (∀ (t : Task) (s1 s2 : TaskStatus),
      t ∈ getTasksByStatus tasks s1 → t ∈ getTasksByStatus tasks s2 → s1 = s2) ∧
    (∀ s : TaskStatus, List.Sorted posLE (getTasksByStatus tasks s)) := by
  refine ⟨?_, ?_, ?_⟩
  · rw [List.perm_iff_count]
    intro a
    simp only [STATUS_COLUMNS, List.map_cons, List.map_nil, List.flatten_cons,
      List.flatten_nil, List.count_append, List.count_nil, count_getTasksByStatus]
    cases h : a.status <;> simp [h]
  · intro t s1 s2 h1 h2
    have m1 : t.status = s1 := by
      have := (List.mem_insertionSort posLE).mp h1
      exact of_decide_eq_true (List.mem_filter.mp this).2
    have m2 : t.status = s2 := by
      have := (List.mem_insertionSort posLE).mp h2
      exact of_decide_eq_true (List.mem_filter.mp this).2
    exact m1.symm.trans m2
  · intro s
    exact List.sorted_insertionSort posLE _

theorem C7_partition_cover_witness :
    ((STATUS_COLUMNS.map fun c =>
        getTasksByStatus [mkTask "a" "b1" .todo 1, mkTask "b" "b1" .done 0,
          mkTask "c" "b1" .todo 0] c.id).flatten).Perm
      [mkTask "a" "b1" .todo 1, mkTask "b" "b1" .done 0, mkTask "c" "b1" .todo 0] ∧
    List.Sorted posLE (getTasksByStatus
      [mkTask "a" "b1" .todo 1, mkTask "b" "b1" .done 0, mkTask "c" "b1" .todo 0] .todo) :=
  ⟨(C7_partition_cover [mkTask "a" "b1" .todo 1, mkTask "b" "b1" .done 0,
      mkTask "c" "b1" .todo 0]).1,
   (C7_partition_cover [mkTask "a" "b1" .todo 1, mkTask "b" "b1" .done 0,
      mkTask "c" "b1" .todo 0]).2.2 .todo⟩

lemma hasAssignment_deleteAssignment (db : List Assignment) (tid uid : String) :
    hasAssignment (deleteAssignment db tid uid) tid uid = false := by
  rw [Bool.eq_false_iff]
  intro h
  rcases List.any_eq_true.mp h with ⟨a, ha, hpair⟩
  have hkeep := (List.mem_filter.mp ha).2
  rw [hpair] at hkeep
  simp at hkeep

/-- C8: toggling an already-present assignment never double-inserts — it
either removes the row (when the local view knows of it) or the insert is
rejected by the unique key and the table is unchanged with an error
surfaced; toggling an absent assignment appends exactly one row; and the
pairwise-distinct (task, identity) property of the table is preserved by
every toggle. -/
theorem C8_assignment_toggle (localA : List String) (db : List Assignment)
    (tid uid : String) (hnodup : pairDistinct db) :
    (hasAssignment db tid uid = true →
      hasAssignment (handleAssignUser localA db tid uid).1 tid uid = false ∨
      ((handleAssignUser localA db tid uid).1 = db ∧
        (handleAssignUser localA db tid uid).2 = true)) ∧
    (hasAssignment db tid uid = false → uid ∉ localA →
      (handleAssignUser localA db tid uid).1 = db ++ [⟨tid, uid⟩]) ∧
    pairDistinct (handleAssignUser localA db tid uid).1 := by
  by_cases hloc : uid ∈ localA
  · have hcall : handleAssignUser localA db tid uid = (deleteAssignment db tid uid, false) := by
      simp [handleAssignUser, hloc]
    refine ⟨?_, ?_, ?_⟩
    · intro _
      left
      rw [hcall]
      exact hasAssignment_deleteAssignment db tid uid
    · intro _ habs
      exact absurd hloc habs
    · rw [hcall]
      exact hnodup.sublist (List.filter_sublist db)
  · by_cases hdb : hasAssignment db tid uid = true
    · have hcall : handleAssignUser localA db tid uid = (db, true) := by
        simp [handleAssignUser, hloc, insertAssignment, hdb]
      refine ⟨?_, ?_, ?_⟩
      · intro _
        right
        rw [hcall]
        exact ⟨rfl, rfl⟩
      · intro hfalse _
        rw [hdb] at hfalse
        cases hfalse
      · rw [hcall]
        exact hnodup
    · have hdb2 : hasAssignment db tid uid = false := Bool.eq_false_iff.mpr hdb
      have hcall : handleAssignUser localA db tid uid = (db ++ [⟨tid, uid⟩], false) := by
        simp [handleAssignUser, hloc, insertAssignment, hdb2]
      refine ⟨?_, ?_, ?_⟩
      · intro htrue
        rw [htrue] at hdb2
        cases hdb2
      · intro _ _
        rw [hcall]
      · rw [hcall]
        rw [pairDistinct, List.pairwise_append]
        have hforall : ∀ x ∈ db, ¬(x.task_id = tid ∧ x.user_id = uid) := by
          intro x hx hcon
          have habs : hasAssignment db tid uid = true :=
            List.any_eq_true.mpr ⟨x, hx, decide_eq_true hcon⟩
          rw [habs] at hdb2
          cases hdb2
        refine ⟨hnodup, List.pairwise_singleton _ _, ?_⟩
        intro a ha b hb hpair
        have hb2 : b = ⟨tid, uid⟩ := List.mem_singleton.mp hb
        subst hb2
        exact hforall a ha hpair

theorem C8_assignment_toggle_witness :
    (handleAssignUser [] [] "t1" "u1").1 = [⟨"t1", "u1"⟩] ∧
    pairDistinct (handleAssignUser ["u1"] [⟨"t1", "u1"⟩] "t1" "u1").1 :=
  ⟨(C8_assignment_toggle [] [] "t1" "u1" (List.Pairwise.nil)).2.1 rfl (by simp),
   (C8_assignment_toggle ["u1"] [⟨"t1", "u1"⟩] "t1" "u1"
      (List.pairwise_singleton _ _)).2.2⟩

end ProjectManager
